import Mathlib

/-
Shallow embedding of jhtohru/go-cache (src/in-memory-cache.go).

The Go cache stores generic values under string keys with a single TTL fixed
at construction.  Internal state: `hashmap : map[string]*entry[T]` (the Index),
`queue : []*entry[T]` (the Eviction Queue, insertion order), `isClosed : bool`.
Timestamps (`time.Time`) are modelled as `Int`; `time.Time.Before` is strict `<`.
`time.Now()` is passed explicitly as a `now : Int` argument to each operation.
The Go map is modelled as an association list with map semantics (unique keys
as maintained by insert); pointer identity of entries plays no semantic role:
entries are never mutated after creation.

A Go `panic` (from `mustBeNotClosed`) is modelled as `Except.error s` where `s`
is the cache state at the moment of the panic: in every operation the closed
check precedes all field assignments, so the panic state is the input state.
`Except.ok` carries the result and the post state.
-/

set_option autoImplicit false

namespace GoCache

universe u

/-- Go `entry[T]`: key, value and expiration timestamp. -/
structure Entry (α : Type u) where
  key : String
  value : α
  expiration : Int
  deriving Repr, DecidableEq

/-- Go `func (e entry[T]) IsExpired() bool { return e.Expiration.Before(time.Now()) }`. -/
def Entry.isExpired {α : Type u} (e : Entry α) (now : Int) : Bool :=
  e.expiration < now

/-- Go `InMemoryCache[T]` state: TTL, closed flag, index (`hashmap`) and
eviction queue.  The ticker, done channel and mutex are concurrency plumbing
with no effect on the sequential state and are not part of the state model. -/
structure InMemoryCache (α : Type u) where
  timeToLive : Int
  isClosed : Bool
  hashmap : List (String × Entry α)
  queue : List (Entry α)
  deriving Repr, DecidableEq

/-- Go map read `e, exists := c.hashmap[key]`: first (unique) binding of `key`. -/
def hmLookup {α : Type u} : List (String × Entry α) → String → Option (Entry α)
  | [], _ => none
  | (k', e) :: rest, k => if k' = k then some e else hmLookup rest k

/-- Go map write `c.hashmap[key] = e`: replace the binding in place, or append. -/
def hmInsert {α : Type u} : List (String × Entry α) → String → Entry α → List (String × Entry α)
  | [], k, e => [(k, e)]
  | (k', e') :: rest, k, e =>
    if k' = k then (k, e) :: rest else (k', e') :: hmInsert rest k e

/-- The queue-scan loop in Go `Set`:
`for i := range c.queue { if c.queue[i].Key == key { c.queue = append(c.queue[:i], c.queue[i+1:]...); break } }`
removes the first entry with the given key (the `break` stops after one). -/
def removeFirstWithKey {α : Type u} : List (Entry α) → String → List (Entry α)
  | [], _ => []
  | e :: rest, k => if e.key = k then rest else e :: removeFirstWithKey rest k

/-- Go `NewInMemoryCache(timeToLive, autoCleanInterval)`: empty index and queue,
not closed.  `autoCleanInterval` only parameterises the ticker and is not kept
in the state. -/
def NewInMemoryCache (α : Type u) (timeToLive autoCleanInterval : Int) : InMemoryCache α :=
  { timeToLive := timeToLive
    isClosed := false
    hashmap := []
    queue := [] }

/-- Go `Set`: after `mustBeNotClosed`, if the key exists in the hashmap the first
queue entry with that key is removed; a fresh entry with expiration
`now + timeToLive` is stored in the hashmap and appended to the queue tail. -/
def InMemoryCache.Set {α : Type u} (c : InMemoryCache α) (key : String) (v : α) (now : Int) :
    Except (InMemoryCache α) (InMemoryCache α) :=
  if c.isClosed then .error c
  else
    let queue1 :=
      if (hmLookup c.hashmap key).isSome then removeFirstWithKey c.queue key
      else c.queue
    let e : Entry α := { key := key, value := v, expiration := now + c.timeToLive }
    .ok { c with hashmap := hmInsert c.hashmap key e, queue := queue1 ++ [e] }

/-- Go `Get`: after `mustBeNotClosed`, look the key up; on absence or expiration
return the zero value of `T` (`var v T`, modelled by `default`) with a
"cache miss" error (`found = false`); otherwise the stored value (`found = true`).
`Get` performs no field assignment, so the post state is the input state. -/
def InMemoryCache.Get {α : Type u} [Inhabited α] (c : InMemoryCache α) (key : String)
    (now : Int) : Except (InMemoryCache α) ((α × Bool) × InMemoryCache α) :=
  if c.isClosed then .error c
  else
    match hmLookup c.hashmap key with
    | none => .ok ((default, false), c)
    | some e => if e.isExpired now then .ok ((default, false), c) else .ok ((e.value, true), c)

/-- Go `Close`: after `mustBeNotClosed`, stop the ticker, close the done channel
(no sequential-state effect) and set `isClosed`. -/
def InMemoryCache.Close {α : Type u} (c : InMemoryCache α) :
    Except (InMemoryCache α) (InMemoryCache α) :=
  if c.isClosed then .error c
  else .ok { c with isClosed := true }

/-- Go `deleteExpiredEntries` (the Cleaner's sweep): early-return on an empty
queue, then `for len(c.queue) != 0 && c.queue[0].IsExpired() { c.queue = c.queue[1:] }`,
i.e. drop the expired head entries.  The hashmap is not touched. -/
def InMemoryCache.deleteExpiredEntries {α : Type u} (c : InMemoryCache α) (now : Int) :
    InMemoryCache α :=
  if c.queue.isEmpty then c
  else { c with queue := c.queue.dropWhile (fun e => e.isExpired now) }

/-- Number of queue entries carrying a given key. -/
def countKey {α : Type u} (q : List (Entry α)) (k : String) : Nat :=
  (q.filter (fun e => e.key == k)).length

/-- Number of index bindings for a given key. -/
def hmCountKey {α : Type u} (m : List (String × Entry α)) (k : String) : Nat :=
  (m.filter (fun p => p.1 == k)).length

/-- A `Get` outcome is a miss when it returned normally with `found = false`. -/
def isMiss {α : Type u} (r : Except (InMemoryCache α) ((α × Bool) × InMemoryCache α)) : Bool :=
  match r with
  | .ok ((_, found), _) => !found
  | .error _ => false

/-- The queue is in non-decreasing expiration order. -/
def queueSorted {α : Type u} (q : List (Entry α)) : Prop :=
  List.Pairwise (fun e1 e2 => e1.expiration ≤ e2.expiration) q

/-- Modelled from the spec's words (claim C3 compares it against the code): a
lookup "misses if the key is absent from the Index or present but its
expiration timestamp is at or before the current time". -/
def specMissCond {α : Type u} (c : InMemoryCache α) (k : String) (now : Int) : Bool :=
  match hmLookup c.hashmap k with
  | none => true
  | some e => e.expiration ≤ now

/-- Concrete scenario for the sweep: fresh cache with ttl 1, `Set "key" 7` at
time 0 (expiration 1). -/
def afterSet : InMemoryCache Nat :=
  match (NewInMemoryCache Nat 1 1).Set "key" 7 0 with
  | .ok c => c
  | .error c => c

/-- The sweep runs at time 2, when the single entry (expiration 1) is expired. -/
def afterSweep : InMemoryCache Nat := afterSet.deleteExpiredEntries 2

/-- Concrete open cache holding an entry whose expiration timestamp equals the
lookup time used against it. -/
def cBoundary : InMemoryCache Nat :=
  { timeToLive := 1
    isClosed := false
    hashmap := [("k", { key := "k", value := 7, expiration := 5 })]
    queue := [{ key := "k", value := 7, expiration := 5 }] }

/-- C1: the claim says the sweep removes the expired entry's key from the Index
as well, so that on an all-expired cache both queue and index end up empty.
The code's `deleteExpiredEntries` only trims the queue and never deletes from
the hashmap: at the failing input (one expired entry, sweep at time 2) the
queue is emptied but the index still holds the key. -/
theorem C1_sweep_leaves_key_in_index :
    afterSweep.queue = [] ∧
      afterSweep.hashmap = [("key", { key := "key", value := 7, expiration := 1 })] := by
  decide

/-- C2: the claim says every operation, the Cleaner's sweep included, preserves
the Index–Queue bijection.  After the sweep at the failing input the key "key"
still has one binding in the index but zero entries in the queue, so the
bijection is broken by `deleteExpiredEntries`. -/
theorem C2_sweep_breaks_bijection :
    hmCountKey afterSweep.hashmap "key" = 1 ∧ countKey afterSweep.queue "key" = 0 := by
  decide

/-- C3 counterexample: at `cBoundary` the entry's expiration (5) is at the
current time (5), so the claim ("miss iff absent or expiration at or before
now") predicts a miss; the code's `IsExpired` uses strict `Before`, so `Get`
is a hit.  The claimed equivalence is false at this input. -/
theorem C3_counterexample :
    ¬ (isMiss (cBoundary.Get "k" 5) = true ↔ specMissCond cBoundary "k" 5 = true) := by
  decide

/-- C3 amended: on a non-closed cache, `Get k` misses iff `k` is absent from the
index or its entry's expiration is strictly before the current time; otherwise
it returns the stored value with success (covered by the `isMiss` dichotomy
together with C10/C9; the boundary instant `expiration = now` is a hit). -/
theorem C3_get_miss_iff_absent_or_strictly_expired (α : Type) [Inhabited α]
    (c : InMemoryCache α) (k : String) (now : Int) (hopen : c.isClosed = false) :
    isMiss (c.Get k now) = true ↔
      (hmLookup c.hashmap k = none ∨
        ∃ e, hmLookup c.hashmap k = some e ∧ e.expiration < now) := by
  unfold InMemoryCache.Get
  rw [hopen]
  cases h : hmLookup c.hashmap k with
  | none => simp [isMiss]
  | some e =>
    by_cases he : e.isExpired now
    · have hlt : e.expiration < now := by simpa [Entry.isExpired] using he
      simp [he, isMiss]
      exact hlt
    · have hlt : ¬ e.expiration < now := by simpa [Entry.isExpired] using he
      simp [he, isMiss]
      exact le_of_not_lt hlt

/-- C3 witness: the amended equivalence instantiated at `cBoundary` one tick
past the expiration, where the lookup is a miss. -/
theorem C3_witness :
    cBoundary.isClosed = false ∧
      (isMiss (cBoundary.Get "k" 6) = true ↔
        (hmLookup cBoundary.hashmap "k" = none ∨
          ∃ e, hmLookup cBoundary.hashmap "k" = some e ∧ e.expiration < 6)) :=
  ⟨rfl, C3_get_miss_iff_absent_or_strictly_expired Nat cBoundary "k" 6 rfl⟩

/-- C8: on a freshly constructed cache every lookup is a miss (zero value,
`found = false`) and the state is unchanged. -/
theorem C8_fresh_cache_always_misses (α : Type) [Inhabited α] (ttl si : Int)
    (k : String) (now : Int) :
    (NewInMemoryCache α ttl si).Get k now =
      .ok ((default, false), NewInMemoryCache α ttl si) :=
  rfl

/-- C7: `Get` never mutates the cache: it either panics on a closed cache
(state at the panic is the input state) or returns with post state exactly the
input state — index, queue and closed flag unchanged — even when it observes
an expired entry. -/
theorem C7_get_never_mutates (α : Type) [Inhabited α] (c : InMemoryCache α)
    (k : String) (now : Int) :
    c.Get k now = .error c ∨ ∃ r : α × Bool, c.Get k now = .ok (r, c) := by
  unfold InMemoryCache.Get
  by_cases hc : c.isClosed
  · exact Or.inl (by simp [hc])
  · cases h : hmLookup c.hashmap k with
    | none => exact Or.inr ⟨(default, false), by simp [hc, h]⟩
    | some e =>
      by_cases he : e.isExpired now
      · exact Or.inr ⟨(default, false), by simp [hc, h, he]⟩
      · exact Or.inr ⟨(e.value, true), by simp [hc, h, he]⟩

/-- C10: whenever `Get` returns normally with `found = false` (a miss), the
value it returns is the zero value of the element type (`var v T` in Go,
`default` here), never a stale stored value. -/
theorem C10_miss_returns_zero_value (α : Type) [Inhabited α] (c : InMemoryCache α)
    (k : String) (now : Int) (v : α) (st : InMemoryCache α)
    (h : c.Get k now = .ok ((v, false), st)) : v = default := by
  unfold InMemoryCache.Get at h
  by_cases hc : c.isClosed
  · simp [hc] at h
  · simp only [hc, Bool.false_eq_true, if_false] at h
    cases hl : hmLookup c.hashmap k with
    | none =>
      rw [hl] at h
      simp only [Except.ok.injEq, Prod.mk.injEq] at h
      exact h.1.1.symm
    | some e =>
      rw [hl] at h
      by_cases he : e.isExpired now
      · simp only [he, if_true, Except.ok.injEq, Prod.mk.injEq] at h
        exact h.1.1.symm
      · simp [he] at h

/-- C10 witness: a miss on `cBoundary` at time 6 returns the zero value of `Nat`. -/
theorem C10_witness :
    cBoundary.Get "k" 6 = .ok ((0, false), cBoundary) ∧ (0 : Nat) = default :=
  ⟨rfl, C10_miss_returns_zero_value Nat cBoundary "k" 6 0 cBoundary rfl⟩

/-- C5: once `Close` has succeeded, every subsequent `Set`, `Get` or `Close`
panics (`mustBeNotClosed`), and since the closed check precedes every field
assignment the panic leaves the cache state unchanged: the panic payload is
exactly the post-`Close` state `c'`.  No call silently succeeds or is treated
as a miss. -/
theorem C5_use_after_close_is_fatal (α : Type) [Inhabited α] (c c' : InMemoryCache α)
    (k1 k2 : String) (v : α) (t1 t2 : Int) (h : c.Close = .ok c') :
    c'.Set k1 v t1 = .error c' ∧ c'.Get k2 t2 = .error c' ∧ c'.Close = .error c' := by
  unfold InMemoryCache.Close at h
  by_cases hc : c.isClosed
  · simp [hc] at h
  · simp only [hc, Bool.false_eq_true, if_false, Except.ok.injEq] at h
    have hcl : c'.isClosed = true := by rw [← h]
    exact ⟨by simp [InMemoryCache.Set, hcl], by simp [InMemoryCache.Get, hcl],
      by simp [InMemoryCache.Close, hcl]⟩

/-- The fresh cache after a successful `Close`. -/
def cClosed : InMemoryCache Nat :=
  { timeToLive := 1
    isClosed := true
    hashmap := []
    queue := [] }

/-- C5 witness: closing the fresh cache yields `cClosed`, and each subsequent
operation on it panics with the state unchanged. -/
theorem C5_witness :
    (NewInMemoryCache Nat 1 1).Close = .ok cClosed ∧
      (cClosed.Set "k" 7 0 = .error cClosed ∧ cClosed.Get "k" 0 = .error cClosed ∧
        cClosed.Close = .error cClosed) :=
  ⟨rfl, C5_use_after_close_is_fatal Nat (NewInMemoryCache Nat 1 1) cClosed "k" "k" 7 0 0 rfl⟩

/-- Looking up a key right after inserting it finds exactly the inserted entry. -/
theorem hmLookup_hmInsert_self {α : Type u} (m : List (String × Entry α)) (k : String)
    (e : Entry α) : hmLookup (hmInsert m k e) k = some e := by
  induction m with
  | nil => simp [hmInsert, hmLookup]
  | cons p rest ih =>
    cases p with
    | mk k' e' =>
      by_cases hp : k' = k
      · simp [hmInsert, hp, hmLookup]
      · simp [hmInsert, hp, hmLookup, ih]

/-- C9: on an open cache, `Set k v` at time `t1` followed by `Get k` at any time
`t2` not past the expiration `t1 + ttl` returns the stored value with success. -/
theorem C9_hit_after_set (α : Type) [Inhabited α] (c : InMemoryCache α) (k : String)
    (v : α) (t1 t2 : Int) (c' : InMemoryCache α)
    (hopen : c.isClosed = false) (httl : 0 < c.timeToLive)
    (hset : c.Set k v t1 = .ok c') (himm : t2 ≤ t1 + c.timeToLive) :
    c'.Get k t2 = .ok ((v, true), c') := by
  unfold InMemoryCache.Set at hset
  simp only [hopen, Bool.false_eq_true, if_false, Except.ok.injEq] at hset
  subst hset
  unfold InMemoryCache.Get
  simp only [hopen, Bool.false_eq_true, if_false]
  rw [hmLookup_hmInsert_self]
  simp [Entry.isExpired, not_lt.mpr himm]

/-- State of a fresh ttl-5 cache after `Set "k" 7` at time 0. -/
def c9after : InMemoryCache Nat :=
  { timeToLive := 5
    isClosed := false
    hashmap := [("k", { key := "k", value := 7, expiration := 5 })]
    queue := [{ key := "k", value := 7, expiration := 5 }] }

/-- C9 witness: `Set "k" 7` at time 0 with ttl 5 then `Get "k"` at time 3 hits. -/
theorem C9_witness :
    (NewInMemoryCache Nat 5 1).isClosed = false ∧ (0 : Int) < 5 ∧
      (NewInMemoryCache Nat 5 1).Set "k" 7 0 = .ok c9after ∧ (3 : Int) ≤ 0 + 5 ∧
      c9after.Get "k" 3 = .ok ((7, true), c9after) :=
  ⟨rfl, by decide, rfl, by decide,
    C9_hit_after_set Nat (NewInMemoryCache Nat 5 1) "k" 7 0 3 c9after rfl (by decide)
      rfl (by decide)⟩

/-- C6: from a fresh cache, `Set k v1` then `Set k v2` then a timely `Get k`
returns `(v2, found)` — never `v1` — and after each of the two `Set`s the key
has exactly one entry in the queue and exactly one binding in the index. -/
theorem C6_update_overwrites (α : Type) [Inhabited α] (ttl si : Int) (k : String)
    (v1 v2 : α) (t1 t2 t3 : Int) (c1 c2 : InMemoryCache α)
    (h1 : (NewInMemoryCache α ttl si).Set k v1 t1 = .ok c1)
    (h2 : c1.Set k v2 t2 = .ok c2)
    (hhit : t3 ≤ t2 + ttl) :
    c2.Get k t3 = .ok ((v2, true), c2) ∧
      countKey c1.queue k = 1 ∧ hmCountKey c1.hashmap k = 1 ∧
      countKey c2.queue k = 1 ∧ hmCountKey c2.hashmap k = 1 := by
  have hc1 : c1 =
      { timeToLive := ttl
        isClosed := false
        hashmap := [(k, { key := k, value := v1, expiration := t1 + ttl })]
        queue := [{ key := k, value := v1, expiration := t1 + ttl }] } :=
    (Except.ok.inj h1).symm
  subst hc1
  simp only [InMemoryCache.Set, hmLookup, hmInsert, removeFirstWithKey,
    if_pos rfl, Option.isSome_some, if_true, Bool.false_eq_true, if_false,
    List.nil_append, Except.ok.injEq] at h2
  subst h2
  refine ⟨?_, ?_, ?_, ?_, ?_⟩
  · unfold InMemoryCache.Get
    simp only [Bool.false_eq_true, if_false, hmLookup, if_pos rfl]
    simp [Entry.isExpired, not_lt.mpr hhit]
  · simp [countKey]
  · simp [hmCountKey]
  · simp [countKey]
  · simp [hmCountKey]

/-- State of a fresh ttl-5 cache after `Set "k" 3` at time 0. -/
def c6mid : InMemoryCache Nat :=
  { timeToLive := 5
    isClosed := false
    hashmap := [("k", { key := "k", value := 3, expiration := 5 })]
    queue := [{ key := "k", value := 3, expiration := 5 }] }

/-- State after the overwriting `Set "k" 4` at time 1 on `c6mid`. -/
def c6fin : InMemoryCache Nat :=
  { timeToLive := 5
    isClosed := false
    hashmap := [("k", { key := "k", value := 4, expiration := 6 })]
    queue := [{ key := "k", value := 4, expiration := 6 }] }

/-- C6 witness: the overwrite scenario at ttl 5, times 0, 1 and lookup time 2. -/
theorem C6_witness :
    (NewInMemoryCache Nat 5 1).Set "k" 3 0 = .ok c6mid ∧
      c6mid.Set "k" 4 1 = .ok c6fin ∧ (2 : Int) ≤ 1 + 5 ∧
      (c6fin.Get "k" 2 = .ok ((4, true), c6fin) ∧
        countKey c6mid.queue "k" = 1 ∧ hmCountKey c6mid.hashmap "k" = 1 ∧
        countKey c6fin.queue "k" = 1 ∧ hmCountKey c6fin.hashmap "k" = 1) :=
  ⟨rfl, rfl, by decide,
    C6_update_overwrites Nat 5 1 "k" 3 4 0 1 2 c6mid c6fin rfl rfl (by decide)⟩

/-- Running a list of `Set` operations `(key, value, time)` in order.  A panic
(closed cache) aborts the run with the panic state. -/
def runSets {α : Type u} : InMemoryCache α → List (String × α × Int) →
    Except (InMemoryCache α) (InMemoryCache α)
  | c, [] => .ok c
  | c, op :: rest =>
    match c.Set op.1 op.2.1 op.2.2 with
    | .error e => .error e
    | .ok c1 => runSets c1 rest

/-- The queue-scan removal in `Set` yields a sublist of the queue. -/
theorem removeFirstWithKey_sublist {α : Type u} (q : List (Entry α)) (k : String) :
    (removeFirstWithKey q k).Sublist q := by
  induction q with
  | nil => simp [removeFirstWithKey]
  | cons e rest ih =>
    by_cases he : e.key = k
    · simp only [removeFirstWithKey, he, if_pos]
      exact List.sublist_cons_self e rest
    · simpa [removeFirstWithKey, he] using ih.cons₂ e

/-- On an open cache, `Set` succeeds and its post state keeps a sublist of the
old queue with the fresh entry (expiration `t + ttl`) appended at the tail,
and the fresh entry stored in the index. -/
theorem Set_ok_of_open {α : Type u} (c : InMemoryCache α) (k : String) (v : α) (t : Int)
    (hopen : c.isClosed = false) :
    ∃ q1, q1.Sublist c.queue ∧
      c.Set k v t = .ok { c with
        hashmap := hmInsert c.hashmap k { key := k, value := v, expiration := t + c.timeToLive }
        queue := q1 ++ [{ key := k, value := v, expiration := t + c.timeToLive }] } := by
  unfold InMemoryCache.Set
  by_cases hl : (hmLookup c.hashmap k).isSome
  · exact ⟨removeFirstWithKey c.queue k, removeFirstWithKey_sublist _ _, by simp [hopen, hl]⟩
  · exact ⟨c.queue, List.Sublist.refl _, by simp [hopen, hl]⟩

/-- Sortedness invariant for `runSets`: starting from an open cache whose queue
is sorted and bounded by the upcoming timestamps, a run of `Set`s at
non-decreasing times keeps the queue in non-decreasing expiration order. -/
theorem runSets_sorted_of_monotone {α : Type u} (ops : List (String × α × Int)) :
    ∀ c c' : InMemoryCache α, c.isClosed = false →
      List.Pairwise (fun a b => a.2.2 ≤ b.2.2) ops →
      (∀ e ∈ c.queue, ∀ op ∈ ops, e.expiration ≤ op.2.2 + c.timeToLive) →
      queueSorted c.queue →
      runSets c ops = .ok c' → queueSorted c'.queue := by
  induction ops with
  | nil =>
    intro c c' _ _ _ hs hr
    cases hr
    exact hs
  | cons op rest ih =>
    intro c c' hopen hpw hbound hs hr
    obtain ⟨q1, hq1, hset⟩ := Set_ok_of_open c op.1 op.2.1 op.2.2 hopen
    rw [runSets, hset] at hr
    set enew : Entry α := { key := op.1, value := op.2.1, expiration := op.2.2 + c.timeToLive }
    apply ih _ c' _ (List.pairwise_cons.mp hpw).2 _ _ hr
    · exact hopen
    · intro e he op' hop'
      show e.expiration ≤ op'.2.2 + c.timeToLive
      rcases List.mem_append.mp he with h1 | h2
      · exact hbound e (hq1.subset h1) op' (List.mem_cons_of_mem op hop')
      · have heq : e = enew := by simpa using h2
        subst heq
        have hle : op.2.2 ≤ op'.2.2 := (List.pairwise_cons.mp hpw).1 op' hop'
        simp only [enew]
        omega
    · show queueSorted (q1 ++ [enew])
      refine List.pairwise_append.mpr ⟨hs.sublist hq1, List.pairwise_singleton _ _, ?_⟩
      intro a ha b hb
      have hb' : b = enew := by simpa using hb
      subst hb'
      exact hbound a (hq1.subset ha) op (List.mem_cons_self op rest)

/-- C4: starting from a fresh cache, for any sequence of `Set` calls (repeated
keys included) executed at non-decreasing timestamps, the queue is in
non-decreasing expiration order at every observation point — after every
prefix of the sequence (`ops.take n`). -/
theorem C4_queue_sorted_at_every_point (α : Type) (ttl si : Int)
    (ops : List (String × α × Int)) (n : Nat) (c' : InMemoryCache α)
    (hmono : List.Pairwise (fun a b => a.2.2 ≤ b.2.2) ops)
    (hrun : runSets (NewInMemoryCache α ttl si) (ops.take n) = .ok c') :
    queueSorted c'.queue :=
  runSets_sorted_of_monotone (ops.take n) (NewInMemoryCache α ttl si) c' rfl
    (hmono.sublist (List.take_sublist n ops))
    (by simp [NewInMemoryCache])
    (by simp [queueSorted, NewInMemoryCache])
    hrun

/-- A concrete `Set` sequence with a repeated key at non-decreasing times. -/
def c4ops : List (String × Nat × Int) := [("a", 0, 0), ("b", 1, 1), ("a", 2, 2)]

/-- The cache produced by running `c4ops` on a fresh ttl-5 cache: the repeated
key "a" was removed from its old queue position and re-appended at the tail. -/
def c4res : InMemoryCache Nat :=
  { timeToLive := 5
    isClosed := false
    hashmap := [("a", { key := "a", value := 2, expiration := 7 }),
                ("b", { key := "b", value := 1, expiration := 6 })]
    queue := [{ key := "b", value := 1, expiration := 6 },
              { key := "a", value := 2, expiration := 7 }] }

/-- C4 witness: the concrete three-`Set` run (repeated key "a") ends with a
queue in non-decreasing expiration order. -/
theorem C4_witness :
    List.Pairwise (fun a b => a.2.2 ≤ b.2.2) c4ops ∧
      runSets (NewInMemoryCache Nat 5 1) (c4ops.take 3) = .ok c4res ∧
      queueSorted c4res.queue :=
  ⟨by decide, rfl, C4_queue_sorted_at_every_point Nat 5 1 c4ops 3 c4res (by decide) rfl⟩

end GoCache
